import Mathlib

/-!
# Shallow embedding of the RustyBlackJack game core (src/main.rs)

This file embeds the rules engine of the Blackjack game: the deck model
(`CardType`, `CardSuit`, `Card`, `get_deck`), the draw allocator
(`get_random_card`), the hand evaluator (`calculate_hand_score`) and the
round state machine (`exec_cycle` and the four per-state handlers), and
proves the specified properties about them.

Modelling conventions:
* Rendering (canvas, texture manager, fonts) is presentation plumbing with no
  effect on the game state; the `canvas` and `texture_manager` fields of the
  Rust `Game` struct are omitted, and the rendering calls inside the handlers
  are dropped.
* `rng.gen_range(0..deck.len())` together with the rejection loop of
  `get_random_card` is abstracted by a draw oracle `pick : List Nat → Nat`
  giving, as a function of the current `used_cards` list, the index on which
  the rejection loop eventually lands.  What the loop guarantees on
  termination — the landed-on index is in range and not yet used — is the
  predicate `DrawOracle.Valid` and appears as a hypothesis of the theorems
  that need it.
* `Option.unwrap()` (which panics on `None`) and the indexing `self.deck[i]`
  (which panics out of range) are modelled by propagating `none`: a handler
  returns `Option Game`, with `none` standing for the panic.
* Rust `usize` values here are all small (bounded by 52 or by 11·52), far
  below any overflow, so they are modelled as `Nat`.
-/

/-- `const TWENTY_ONE: usize = 21`. -/
def TWENTY_ONE : Nat := 21

/-- `const CASINO_STOP_SCORE: usize = 17`. -/
def CASINO_STOP_SCORE : Nat := 17

/-- The thirteen card ranks (Rust `enum CardType`). -/
inductive CardType
  | Two
  | Three
  | Four
  | Five
  | Six
  | Seven
  | Eight
  | Nine
  | Ten
  | Jack
  | Queen
  | King
  | Ace
deriving DecidableEq, Repr

/-- `CardType::iterator()`: the array of ranks iterated over in order. -/
def CardType.all : List CardType :=
  [CardType.Two,
   CardType.Three,
   CardType.Four,
   CardType.Five,
   CardType.Six,
   CardType.Seven,
   CardType.Eight,
   CardType.Nine,
   CardType.Ten,
   CardType.Jack,
   CardType.Queen,
   CardType.King,
   CardType.Ace]

/-- `CardType::get_score`. -/
def CardType.get_score : CardType → Nat
  | CardType.Two => 2
  | CardType.Three => 3
  | CardType.Four => 4
  | CardType.Five => 5
  | CardType.Six => 6
  | CardType.Seven => 7
  | CardType.Eight => 8
  | CardType.Nine => 9
  | CardType.Ten => 10
  | CardType.Jack => 10
  | CardType.Queen => 10
  | CardType.King => 10
  | CardType.Ace => 11

/-- `CardType::get_string_name`. -/
def CardType.get_string_name : CardType → String
  | CardType.Two => "2"
  | CardType.Three => "3"
  | CardType.Four => "4"
  | CardType.Five => "5"
  | CardType.Six => "6"
  | CardType.Seven => "7"
  | CardType.Eight => "8"
  | CardType.Nine => "9"
  | CardType.Ten => "10"
  | CardType.Jack => "jack"
  | CardType.Queen => "queen"
  | CardType.King => "king"
  | CardType.Ace => "ace"

/-- The four suits (Rust `enum CardSuit`). -/
inductive CardSuit
  | Clubs
  | Diamonds
  | Hearts
  | Spades
deriving DecidableEq, Repr

/-- `CardSuit::iterator()`: the array of suits iterated over in order. -/
def CardSuit.all : List CardSuit :=
  [CardSuit.Clubs,
   CardSuit.Diamonds,
   CardSuit.Hearts,
   CardSuit.Spades]

/-- `CardSuit::get_string_name`. -/
def CardSuit.get_string_name : CardSuit → String
  | CardSuit.Clubs => "clubs"
  | CardSuit.Diamonds => "diamonds"
  | CardSuit.Hearts => "hearts"
  | CardSuit.Spades => "spades"

/-- Rust `struct Card` (the `_card_suit` field is named `card_suit` here). -/
structure Card where
  card_type : CardType
  card_suit : CardSuit
  path : String
deriving DecidableEq, Repr

/-- Rust `enum Winner`. -/
inductive Winner
  | Player
  | Casino
  | Tie
deriving DecidableEq, Repr

/-- Rust `enum GameStatus` (keeping the source's spelling of the fourth
variant). -/
inductive GameStatus
  | Uninitialized
  | AwaitingPlayerDecision
  | GameOver (winner : Winner)
  | PlayerStopedTakingCards
deriving DecidableEq, Repr

/-- The key codes the game logic inspects (F = hit, E = stand, N = restart);
other keys are irrelevant to the handlers, which only test membership of
these three. -/
inductive Keycode
  | F
  | E
  | N
  | Escape
deriving DecidableEq, Repr

/-- Rust `struct Game`, minus the two rendering-only fields (`canvas`,
`texture_manager`). -/
structure Game where
  status : GameStatus
  deck : List Card
  used_cards : List Nat
  player_hand : List Nat
  casino_hand : List Nat
deriving DecidableEq, Repr

/-- `Game::new`. -/
def Game.new (deck : List Card) : Game :=
  { status := GameStatus.Uninitialized
    deck := deck
    used_cards := []
    player_hand := []
    casino_hand := [] }

/-- The draw oracle: as a function of the current `used_cards` list, the
index on which the rejection-sampling loop of `get_random_card` lands. -/
def DrawOracle : Type := List Nat → Nat

/-- What the rejection loop of `get_random_card` guarantees whenever it
terminates: `gen_range(0..deck.len())` only produces indices below the deck
length, and the loop only exits on an index not contained in `used_cards`. -/
def DrawOracle.Valid (deckLen : Nat) (pick : DrawOracle) : Prop :=
  ∀ used : List Nat, used.length < deckLen →
    pick used < deckLen ∧ pick used ∉ used

/-- `Game::get_random_card`.  Returns the drawn index (or `none` when
`deck.len() <= used_cards.len()`) together with the `Game` as left by the
call: on success the chosen index is pushed onto `used_cards`, on exhaustion
the game is untouched. -/
def get_random_card (g : Game) (pick : DrawOracle) : Option Nat × Game :=
  if g.deck.length ≤ g.used_cards.length then
    (none, g)
  else
    (some (pick g.used_cards),
     { g with used_cards := g.used_cards ++ [pick g.used_cards] })

/-- The accumulator loop of `Game::calculate_hand_score`:
`result += deck[card].card_type.get_score()` over the hand, `none` when an
index is out of range (the Rust indexing would panic). -/
def score_fold (deck : List Card) : Nat → List Nat → Option Nat
  | result, [] => some result
  | result, card :: rest =>
    match deck[card]? with
    | none => none
    | some c => score_fold deck (result + c.card_type.get_score) rest

/-- `Game::calculate_hand_score` (taking the deck as an argument instead of
reading it from `self`). -/
def calculate_hand_score (deck : List Card) (hand : List Nat) : Option Nat :=
  score_fold deck 0 hand

/-- `Game::exec_game_uninitialized`: one card to the casino, two to the
player, then dispatch on the player's score. -/
def exec_game_uninitialized (g : Game) (pick : DrawOracle) : Option Game :=
  match get_random_card g pick with
  | (none, _) => none
  | (some c1, g1) =>
    match get_random_card { g1 with casino_hand := g1.casino_hand ++ [c1] } pick with
    | (none, _) => none
    | (some c2, g2) =>
      match get_random_card { g2 with player_hand := g2.player_hand ++ [c2] } pick with
      | (none, _) => none
      | (some c3, g3) =>
        let g4 := { g3 with player_hand := g3.player_hand ++ [c3] }
        match calculate_hand_score g4.deck g4.player_hand with
        | none => none
        | some player_score =>
          if player_score = TWENTY_ONE then
            some { g4 with status := GameStatus.PlayerStopedTakingCards }
          else
            some { g4 with status := GameStatus.AwaitingPlayerDecision }

/-- `Game::exec_game_awaiting_player_decision` (the two prompt-rendering
calls at the top are presentation only and dropped). -/
def exec_game_awaiting_player_decision (g : Game) (keycodes : List Keycode)
    (pick : DrawOracle) : Option Game :=
  if Keycode.F ∈ keycodes then
    match get_random_card g pick with
    | (none, _) => none
    | (some c, g1) =>
      let g2 := { g1 with player_hand := g1.player_hand ++ [c] }
      match calculate_hand_score g2.deck g2.player_hand with
      | none => none
      | some player_score =>
        if TWENTY_ONE < player_score then
          some { g2 with status := GameStatus.GameOver Winner.Casino }
        else if player_score = TWENTY_ONE then
          some { g2 with status := GameStatus.PlayerStopedTakingCards }
        else
          some g2
  else if Keycode.E ∈ keycodes then
    some { g with status := GameStatus.PlayerStopedTakingCards }
  else
    some g

/-- `Game::exec_game_game_over` (winner-message rendering dropped): on a
non-`GameOver` status the function returns early; on `N` the round data is
reset and the status becomes `Uninitialized`. -/
def exec_game_game_over (g : Game) (keycodes : List Keycode) : Game :=
  match g.status with
  | GameStatus.GameOver _ =>
    if Keycode.N ∈ keycodes then
      { g with
        status := GameStatus.Uninitialized
        used_cards := []
        player_hand := []
        casino_hand := [] }
    else
      g
  | _ => g

/-- The `while casino_score < CASINO_STOP_SCORE && casino_score <= player_score`
loop of `Game::exec_game_player_stopped_taking_cards`: draw (`none` when the
`unwrap` would panic), push onto the casino hand, recompute the casino score.
Terminates because every successful draw grows `used_cards`, which is capped
by the deck length. -/
def dealer_loop (pick : DrawOracle) (player_score : Nat) (g : Game)
    (casino_score : Nat) : Option (Game × Nat) :=
  if casino_score < CASINO_STOP_SCORE ∧ casino_score ≤ player_score then
    match h : get_random_card g pick with
    | (none, _) => none
    | (some c, g1) =>
      let g2 := { g1 with casino_hand := g1.casino_hand ++ [c] }
      match calculate_hand_score g2.deck g2.casino_hand with
      | none => none
      | some cs => dealer_loop pick player_score g2 cs
  else
    some (g, casino_score)
termination_by g.deck.length - g.used_cards.length
decreasing_by
  simp only [get_random_card] at h
  split at h
  · simp at h
  · simp only [Prod.mk.injEq, Option.some.injEq] at h
    obtain ⟨hc, hg⟩ := h
    subst hg
    simp only [List.length_append, List.length_singleton]
    omega

/-- `Game::exec_game_player_stopped_taking_cards`: run the dealer loop, then
pick the winner from the final scores. -/
def exec_game_player_stopped_taking_cards (g : Game) (pick : DrawOracle) :
    Option Game :=
  match calculate_hand_score g.deck g.player_hand with
  | none => none
  | some player_score =>
    match calculate_hand_score g.deck g.casino_hand with
    | none => none
    | some casino_score =>
      match dealer_loop pick player_score g casino_score with
      | none => none
      | some (g1, cs) =>
        if TWENTY_ONE < cs then
          some { g1 with status := GameStatus.GameOver Winner.Player }
        else if player_score < cs then
          some { g1 with status := GameStatus.GameOver Winner.Casino }
        else if cs < player_score then
          some { g1 with status := GameStatus.GameOver Winner.Player }
        else
          some { g1 with status := GameStatus.GameOver Winner.Tie }

/-- `Game::exec_cycle` (clear/present of the canvas and `render_hands`
dropped): dispatch on the current status. -/
def exec_cycle (g : Game) (keycodes : List Keycode) (pick : DrawOracle) :
    Option Game :=
  match g.status with
  | GameStatus.Uninitialized => exec_game_uninitialized g pick
  | GameStatus.AwaitingPlayerDecision =>
    exec_game_awaiting_player_decision g keycodes pick
  | GameStatus.GameOver _ => some (exec_game_game_over g keycodes)
  | GameStatus.PlayerStopedTakingCards =>
    exec_game_player_stopped_taking_cards g pick

/-- `get_deck`: rank-major, suit-minor, with the texture path built as
`"assets/cards/" + (name + "_of_" + suit + ".png")`. -/
def get_deck : List Card :=
  CardType.all.flatMap fun tp =>
    CardSuit.all.map fun suit =>
      { card_type := tp
        card_suit := suit
        path := "assets/cards/" ++ (tp.get_string_name ++ "_of_" ++ suit.get_string_name ++ ".png") }

/-- A concrete draw oracle used to instantiate the theorems: the smallest
index below `len` that is not yet used (one possible landing point of the
rejection loop). -/
def firstFresh (len : Nat) : DrawOracle :=
  fun used => (((List.range len).filter fun i => !(used.contains i)).headD 0)

/-- `n` successive successful draws through `get_random_card`, keeping only
the game state (used to state the dealt-set properties of repeated draws). -/
def drawN (pick : DrawOracle) : Nat → Game → Option Game
  | 0, g => some g
  | n + 1, g =>
    match get_random_card g pick with
    | (none, _) => none
    | (some _, g1) => drawN pick n g1

/-- The score each in-range deck position contributes (0 on an out-of-range
position); used to state what `calculate_hand_score` computes. -/
def card_score_at (deck : List Card) (i : Nat) : Nat :=
  ((deck[i]?).map fun c => c.card_type.get_score).getD 0

/-- Rank scoring written from the spec's words: face value for 2–10, 10 for
Jack, Queen and King, and 11 for Ace. -/
def spec_rank_score (t : CardType) : Nat :=
  match t with
  | CardType.Ace => 11
  | CardType.Jack => 10
  | CardType.Queen => 10
  | CardType.King => 10
  | CardType.Two => 2
  | CardType.Three => 3
  | CardType.Four => 4
  | CardType.Five => 5
  | CardType.Six => 6
  | CardType.Seven => 7
  | CardType.Eight => 8
  | CardType.Nine => 9
  | CardType.Ten => 10

/-- States reachable from `Game::new deck` by ticks of `exec_cycle`, with an
arbitrary key list and an arbitrary valid draw oracle at every tick, along
the runs where no `unwrap` panics. -/
inductive Reachable (deck : List Card) : Game → Prop
  | init : Reachable deck (Game.new deck)
  | step {g g' : Game} (keycodes : List Keycode) (pick : DrawOracle) :
    Reachable deck g →
    DrawOracle.Valid g.deck.length pick →
    exec_cycle g keycodes pick = some g' →
    Reachable deck g'

/-- The bookkeeping invariant of the round: `used_cards` has no duplicates
and is, up to order, exactly the two hands put together. -/
def CardsInv (g : Game) : Prop :=
  g.used_cards.Nodup ∧ g.used_cards.Perm (g.player_hand ++ g.casino_hand)

/-- A concrete card used to build small decks for instantiating theorems. -/
def testCard (t : CardType) : Card :=
  { card_type := t, card_suit := CardSuit.Clubs, path := "" }

/-- A five-card all-tens deck used to instantiate theorems on concrete runs. -/
def testDeck : List Card :=
  [testCard CardType.Ten, testCard CardType.Ten, testCard CardType.Ten,
   testCard CardType.Ten, testCard CardType.Ten]

theorem get_random_card_fst_none_iff (g : Game) (pick : DrawOracle) :
    (get_random_card g pick).1 = none ↔ g.deck.length ≤ g.used_cards.length := by
  unfold get_random_card
  split
  next h => simpa using h
  next h => simpa using h

theorem get_random_card_exhausted {g : Game} (pick : DrawOracle)
    (h : g.deck.length ≤ g.used_cards.length) :
    get_random_card g pick = (none, g) := by
  unfold get_random_card
  simp [h]

theorem get_random_card_some {g g1 : Game} {pick : DrawOracle} {c : Nat}
    (h : get_random_card g pick = (some c, g1)) :
    g.used_cards.length < g.deck.length ∧ c = pick g.used_cards ∧
      g1 = { g with used_cards := g.used_cards ++ [c] } := by
  unfold get_random_card at h
  split at h
  next hle => simp at h
  next hle =>
    simp only [Prod.mk.injEq, Option.some.injEq] at h
    obtain ⟨hc, hg⟩ := h
    subst hc
    exact ⟨by omega, rfl, hg.symm⟩

theorem get_random_card_fresh {g g1 : Game} {pick : DrawOracle} {c : Nat}
    (hv : DrawOracle.Valid g.deck.length pick)
    (h : get_random_card g pick = (some c, g1)) :
    c < g.deck.length ∧ c ∉ g.used_cards := by
  obtain ⟨hlt, hc, -⟩ := get_random_card_some h
  subst hc
  exact hv g.used_cards hlt

theorem score_fold_shift (deck : List Card) (hand : List Nat) :
    ∀ a, score_fold deck a hand = (score_fold deck 0 hand).map fun s => a + s := by
  induction hand with
  | nil => intro a; simp [score_fold]
  | cons x t ih =>
    intro a
    cases h : deck[x]? with
    | none => simp [score_fold, h]
    | some c =>
      simp only [score_fold, h]
      rw [ih, ih (0 + c.card_type.get_score)]
      cases score_fold deck 0 t with
      | none => rfl
      | some s => simp; omega

theorem calculate_hand_score_cons (deck : List Card) (x : Nat) (t : List Nat) :
    calculate_hand_score deck (x :: t) =
      (deck[x]?).bind fun c =>
        (calculate_hand_score deck t).map fun s => c.card_type.get_score + s := by
  unfold calculate_hand_score
  cases h : deck[x]? with
  | none => simp [score_fold, h]
  | some c =>
    simp only [score_fold, h, Option.bind_some]
    rw [score_fold_shift]
    cases score_fold deck 0 t with
    | none => rfl
    | some s => simp

theorem calculate_hand_score_append (deck : List Card) (h1 h2 : List Nat) :
    calculate_hand_score deck (h1 ++ h2) =
      (calculate_hand_score deck h1).bind fun s1 =>
        (calculate_hand_score deck h2).map fun s2 => s1 + s2 := by
  induction h1 with
  | nil =>
    show calculate_hand_score deck h2 = _
    cases h : calculate_hand_score deck h2 with
    | none => simp [calculate_hand_score, score_fold, h]
    | some s => simp [calculate_hand_score, score_fold, h]
  | cons x t ih =>
    simp only [List.cons_append, calculate_hand_score_cons, ih]
    cases deck[x]? with
    | none => rfl
    | some c =>
      cases calculate_hand_score deck t with
      | none => rfl
      | some s1 =>
        cases calculate_hand_score deck h2 with
        | none => rfl
        | some s2 => simp; omega

theorem calculate_hand_score_perm (deck : List Card) {h1 h2 : List Nat}
    (hp : h1.Perm h2) :
    calculate_hand_score deck h1 = calculate_hand_score deck h2 := by
  induction hp with
  | nil => rfl
  | cons x _ ih => rw [calculate_hand_score_cons, calculate_hand_score_cons, ih]
  | swap x y t =>
    simp only [calculate_hand_score_cons]
    cases deck[x]? <;> cases deck[y]? <;>
      cases calculate_hand_score deck t <;> simp <;> omega
  | trans _ _ ih1 ih2 => rw [ih1, ih2]

theorem exec_game_uninitialized_spec {g g' : Game} {pick : DrawOracle}
    (h : exec_game_uninitialized g pick = some g') :
    ∃ c1 c2 c3 P,
      g'.deck = g.deck ∧
      g'.used_cards = g.used_cards ++ [c1, c2, c3] ∧
      g'.casino_hand = g.casino_hand ++ [c1] ∧
      g'.player_hand = g.player_hand ++ [c2, c3] ∧
      calculate_hand_score g.deck (g.player_hand ++ [c2, c3]) = some P ∧
      g'.status = (if P = TWENTY_ONE then GameStatus.PlayerStopedTakingCards
                   else GameStatus.AwaitingPlayerDecision) := by
  unfold exec_game_uninitialized at h
  split at h
  · exact absurd h (by simp)
  next c1 g1 h1 =>
    obtain ⟨-, -, hg1⟩ := get_random_card_some h1
    subst hg1
    dsimp only at h
    split at h
    · exact absurd h (by simp)
    next c2 g2 h2 =>
      obtain ⟨-, -, hg2⟩ := get_random_card_some h2
      subst hg2
      dsimp only at h
      split at h
      · exact absurd h (by simp)
      next c3 g3 h3 =>
        obtain ⟨-, -, hg3⟩ := get_random_card_some h3
        subst hg3
        dsimp only at h
        split at h
        · exact absurd h (by simp)
        next P hP =>
          refine ⟨c1, c2, c3, P, ?_⟩
          split at h <;>
            obtain rfl : _ = g' := Option.some.inj h <;>
            simp_all [List.append_assoc]

theorem exec_game_awaiting_hit_spec {g g' : Game} {keycodes : List Keycode}
    {pick : DrawOracle} (hF : Keycode.F ∈ keycodes)
    (h : exec_game_awaiting_player_decision g keycodes pick = some g') :
    ∃ c P,
      g'.deck = g.deck ∧
      g'.used_cards = g.used_cards ++ [c] ∧
      g'.casino_hand = g.casino_hand ∧
      g'.player_hand = g.player_hand ++ [c] ∧
      calculate_hand_score g.deck (g.player_hand ++ [c]) = some P ∧
      g'.status = (if TWENTY_ONE < P then GameStatus.GameOver Winner.Casino
                   else if P = TWENTY_ONE then GameStatus.PlayerStopedTakingCards
                   else g.status) := by
  unfold exec_game_awaiting_player_decision at h
  rw [if_pos hF] at h
  split at h
  · exact absurd h (by simp)
  next c g1 h1 =>
    obtain ⟨-, -, hg1⟩ := get_random_card_some h1
    subst hg1
    dsimp only at h
    split at h
    · exact absurd h (by simp)
    next P hP =>
      refine ⟨c, P, ?_⟩
      split at h <;> [skip; split at h] <;>
        obtain rfl : _ = g' := Option.some.inj h <;>
        simp_all <;>
        rw [if_neg (by omega)]

theorem exec_game_awaiting_stand_spec {g : Game} {keycodes : List Keycode}
    {pick : DrawOracle} (hF : Keycode.F ∉ keycodes) (hE : Keycode.E ∈ keycodes) :
    exec_game_awaiting_player_decision g keycodes pick =
      some { g with status := GameStatus.PlayerStopedTakingCards } := by
  unfold exec_game_awaiting_player_decision
  rw [if_neg hF, if_pos hE]

theorem exec_game_awaiting_idle_spec {g : Game} {keycodes : List Keycode}
    {pick : DrawOracle} (hF : Keycode.F ∉ keycodes) (hE : Keycode.E ∉ keycodes) :
    exec_game_awaiting_player_decision g keycodes pick = some g := by
  unfold exec_game_awaiting_player_decision
  rw [if_neg hF, if_neg hE]

theorem exec_game_game_over_restart {g : Game} {keycodes : List Keycode}
    {w : Winner} (hw : g.status = GameStatus.GameOver w)
    (hN : Keycode.N ∈ keycodes) :
    exec_game_game_over g keycodes =
      { g with
        status := GameStatus.Uninitialized
        used_cards := []
        player_hand := []
        casino_hand := [] } := by
  unfold exec_game_game_over
  rw [hw]
  simp [hN]

theorem exec_game_game_over_idle {g : Game} {keycodes : List Keycode}
    (hN : Keycode.N ∉ keycodes) :
    exec_game_game_over g keycodes = g := by
  unfold exec_game_game_over
  split
  · simp [hN]
  · rfl

theorem dealer_loop_exhausted {pick : DrawOracle} {player_score : Nat}
    {g snd : Game} {casino_score : Nat}
    (hcond : casino_score < CASINO_STOP_SCORE ∧ casino_score ≤ player_score)
    (hgrc : get_random_card g pick = (none, snd)) :
    dealer_loop pick player_score g casino_score = none := by
  rw [dealer_loop, if_pos hcond]
  split
  · rfl
  next c g1x heq =>
    rw [hgrc] at heq
    simp at heq

theorem dealer_loop_draw {pick : DrawOracle} {player_score : Nat}
    {g g1 : Game} {casino_score c : Nat}
    (hcond : casino_score < CASINO_STOP_SCORE ∧ casino_score ≤ player_score)
    (hgrc : get_random_card g pick = (some c, g1)) :
    dealer_loop pick player_score g casino_score =
      match calculate_hand_score g1.deck (g1.casino_hand ++ [c]) with
      | none => none
      | some cs =>
        dealer_loop pick player_score
          { g1 with casino_hand := g1.casino_hand ++ [c] } cs := by
  rw [dealer_loop, if_pos hcond]
  split
  next snd heq =>
    rw [hgrc] at heq
    simp at heq
  next c2 g1x heq =>
    rw [hgrc] at heq
    simp only [Prod.mk.injEq, Option.some.injEq] at heq
    obtain ⟨rfl, rfl⟩ := heq
    rfl

theorem dealer_loop_stop {pick : DrawOracle} {player_score : Nat}
    {g : Game} {casino_score : Nat}
    (hcond : ¬(casino_score < CASINO_STOP_SCORE ∧ casino_score ≤ player_score)) :
    dealer_loop pick player_score g casino_score = some (g, casino_score) := by
  rw [dealer_loop, if_neg hcond]

theorem dealer_loop_spec {pick : DrawOracle} {player_score : Nat}
    (g : Game) (casino_score : Nat) :
    ∀ {g1 : Game} {cs : Nat},
      calculate_hand_score g.deck g.casino_hand = some casino_score →
      dealer_loop pick player_score g casino_score = some (g1, cs) →
      ∃ L,
        g1.deck = g.deck ∧
        g1.status = g.status ∧
        g1.player_hand = g.player_hand ∧
        g1.used_cards = g.used_cards ++ L ∧
        g1.casino_hand = g.casino_hand ++ L ∧
        calculate_hand_score g1.deck g1.casino_hand = some cs ∧
        ¬(cs < CASINO_STOP_SCORE ∧ cs ≤ player_score) ∧
        (L = [] ∨ g1.used_cards.length ≤ g1.deck.length) := by
  induction g, casino_score using dealer_loop.induct pick player_score with
  | case1 g casino_score hcond snd hgrc =>
    intro g1 cs hcalc hrun
    rw [dealer_loop_exhausted hcond hgrc] at hrun
    exact absurd hrun (by simp)
  | case2 g casino_score hcond c g1' hgrc g2 =>
    rename_i hnone
    intro g1 cs hcalc hrun
    rw [dealer_loop_draw hcond hgrc] at hrun
    have hnone2 : calculate_hand_score g1'.deck (g1'.casino_hand ++ [c]) = none := hnone
    rw [hnone2] at hrun
    exact absurd hrun (by simp)
  | case3 g casino_score hcond c g1' hgrc g2 cs2 hcalc2 =>
    rename_i ih
    intro g1 cs hcalc hrun
    rw [dealer_loop_draw hcond hgrc] at hrun
    have hcalc3 : calculate_hand_score g1'.deck (g1'.casino_hand ++ [c]) = some cs2 := hcalc2
    rw [hcalc3] at hrun
    obtain ⟨hlt, -, hg1'⟩ := get_random_card_some hgrc
    obtain ⟨L, hdeck, hstat, hph, hused, hch, hcs, hstop, hlen⟩ := ih hcalc2 hrun
    subst hg1'
    refine ⟨c :: L, ?_⟩
    simp only at hdeck hstat hph hused hch hlen
    refine ⟨hdeck, hstat, hph, ?_, ?_, hcs, hstop, ?_⟩
    · rw [hused]; simp
    · rw [hch]; simp
    · right
      rcases hlen with rfl | hle
      · rw [hused, hdeck]; simp; omega
      · exact hle
  | case4 g casino_score hcond =>
    intro g1 cs hcalc hrun
    rw [dealer_loop_stop hcond] at hrun
    simp only [Option.some.injEq, Prod.mk.injEq] at hrun
    obtain ⟨rfl, rfl⟩ := hrun
    exact ⟨[], rfl, rfl, rfl, by simp, by simp, hcalc, hcond, Or.inl rfl⟩

theorem exec_game_player_stopped_taking_cards_spec {g g' : Game}
    {pick : DrawOracle}
    (h : exec_game_player_stopped_taking_cards g pick = some g') :
    ∃ L P D,
      g'.deck = g.deck ∧
      g'.player_hand = g.player_hand ∧
      g'.used_cards = g.used_cards ++ L ∧
      g'.casino_hand = g.casino_hand ++ L ∧
      calculate_hand_score g.deck g.player_hand = some P ∧
      calculate_hand_score g'.deck g'.casino_hand = some D ∧
      ¬(D < CASINO_STOP_SCORE ∧ D ≤ P) ∧
      (L = [] ∨ g'.used_cards.length ≤ g'.deck.length) ∧
      g'.status = (if TWENTY_ONE < D then GameStatus.GameOver Winner.Player
                   else if P < D then GameStatus.GameOver Winner.Casino
                   else if D < P then GameStatus.GameOver Winner.Player
                   else GameStatus.GameOver Winner.Tie) := by
  unfold exec_game_player_stopped_taking_cards at h
  split at h
  · exact absurd h (by simp)
  next P hP =>
    split at h
    · exact absurd h (by simp)
    next cs0 hcs0 =>
      split at h
      · exact absurd h (by simp)
      next g1 D hloop =>
        obtain ⟨L, hdeck, -, hph, hused, hch, hcs, hstop, hlen⟩ :=
          dealer_loop_spec g cs0 hcs0 hloop
        refine ⟨L, P, D, ?_⟩
        split at h <;> [skip; split at h] <;> [skip; skip; split at h] <;>
          obtain rfl : _ = g' := Option.some.inj h <;>
          simp_all <;>
          (repeat rw [if_neg (by omega)])

theorem dealer_loop_inv {pick : DrawOracle} {player_score : Nat}
    (g : Game) (casino_score : Nat) :
    ∀ {g1 : Game} {cs : Nat},
      DrawOracle.Valid g.deck.length pick →
      CardsInv g →
      dealer_loop pick player_score g casino_score = some (g1, cs) →
      CardsInv g1 := by
  induction g, casino_score using dealer_loop.induct pick player_score with
  | case1 g casino_score hcond snd hgrc =>
    intro g1 cs hv hInv hrun
    rw [dealer_loop_exhausted hcond hgrc] at hrun
    exact absurd hrun (by simp)
  | case2 g casino_score hcond c g1' hgrc g2 =>
    rename_i hnone
    intro g1 cs hv hInv hrun
    rw [dealer_loop_draw hcond hgrc] at hrun
    have hnone2 : calculate_hand_score g1'.deck (g1'.casino_hand ++ [c]) = none := hnone
    rw [hnone2] at hrun
    exact absurd hrun (by simp)
  | case3 g casino_score hcond c g1' hgrc g2 cs2 hcalc2 =>
    rename_i ih
    intro g1 cs hv hInv hrun
    rw [dealer_loop_draw hcond hgrc] at hrun
    have hcalc3 : calculate_hand_score g1'.deck (g1'.casino_hand ++ [c]) = some cs2 := hcalc2
    rw [hcalc3] at hrun
    obtain ⟨hfr1, hfr2⟩ := get_random_card_fresh hv hgrc
    obtain ⟨-, -, hg1'⟩ := get_random_card_some hgrc
    subst hg1'
    obtain ⟨hnd, hperm⟩ := hInv
    refine ih ?_ ?_ hrun
    · exact hv
    · constructor
      · simp only []
        rw [List.nodup_append]
        exact ⟨hnd, List.nodup_singleton c, by simpa using hfr2⟩
      · simp only []
        refine (hperm.append_right [c]).trans ?_
        rw [List.append_assoc]
  | case4 g casino_score hcond =>
    intro g1 cs hv hInv hrun
    rw [dealer_loop_stop hcond] at hrun
    simp only [Option.some.injEq, Prod.mk.injEq] at hrun
    obtain ⟨rfl, rfl⟩ := hrun
    exact hInv

theorem perm_snoc_left_append {u p q : List Nat} (c : Nat)
    (hp : u.Perm (p ++ q)) : (u ++ [c]).Perm ((p ++ [c]) ++ q) := by
  refine (hp.append_right [c]).trans ?_
  rw [List.append_assoc, List.append_assoc]
  exact List.Perm.append_left p List.perm_append_comm

theorem perm_snoc_right_append {u p q : List Nat} (c : Nat)
    (hp : u.Perm (p ++ q)) : (u ++ [c]).Perm (p ++ (q ++ [c])) := by
  rw [← List.append_assoc]
  exact hp.append_right [c]

theorem get_random_card_inv_player {g g1 : Game} {pick : DrawOracle} {c : Nat}
    (hv : DrawOracle.Valid g.deck.length pick) (hInv : CardsInv g)
    (h : get_random_card g pick = (some c, g1)) :
    CardsInv { g1 with player_hand := g1.player_hand ++ [c] } := by
  obtain ⟨-, hfr2⟩ := get_random_card_fresh hv h
  obtain ⟨-, -, hg1⟩ := get_random_card_some h
  subst hg1
  obtain ⟨hnd, hperm⟩ := hInv
  constructor
  · simp only []
    rw [List.nodup_append]
    exact ⟨hnd, List.nodup_singleton c, by simpa using hfr2⟩
  · simp only []
    exact perm_snoc_left_append c hperm

theorem get_random_card_inv_casino {g g1 : Game} {pick : DrawOracle} {c : Nat}
    (hv : DrawOracle.Valid g.deck.length pick) (hInv : CardsInv g)
    (h : get_random_card g pick = (some c, g1)) :
    CardsInv { g1 with casino_hand := g1.casino_hand ++ [c] } := by
  obtain ⟨-, hfr2⟩ := get_random_card_fresh hv h
  obtain ⟨-, -, hg1⟩ := get_random_card_some h
  subst hg1
  obtain ⟨hnd, hperm⟩ := hInv
  constructor
  · simp only []
    rw [List.nodup_append]
    exact ⟨hnd, List.nodup_singleton c, by simpa using hfr2⟩
  · simp only []
    exact perm_snoc_right_append c hperm

theorem cards_inv_set_status {g : Game} (s : GameStatus) (hInv : CardsInv g) :
    CardsInv { g with status := s } := hInv

theorem exec_game_uninitialized_inv {g g' : Game} {pick : DrawOracle}
    (hv : DrawOracle.Valid g.deck.length pick) (hInv : CardsInv g)
    (h : exec_game_uninitialized g pick = some g') : CardsInv g' := by
  unfold exec_game_uninitialized at h
  split at h
  · exact absurd h (by simp)
  next c1 g1 h1 =>
    have hdeck1 : g1.deck = g.deck := by
      obtain ⟨-, -, hg1⟩ := get_random_card_some h1
      subst hg1; rfl
    have hI1 := get_random_card_inv_casino hv hInv h1
    have hv1 : DrawOracle.Valid
        ({ g1 with casino_hand := g1.casino_hand ++ [c1] }).deck.length pick := by
      simpa [hdeck1] using hv
    split at h
    · exact absurd h (by simp)
    next c2 g2 h2 =>
      have hdeck2 : g2.deck = g.deck := by
        obtain ⟨-, -, hg2⟩ := get_random_card_some h2
        subst hg2; simpa using hdeck1
      have hI2 := get_random_card_inv_player hv1 hI1 h2
      have hv2 : DrawOracle.Valid
          ({ g2 with player_hand := g2.player_hand ++ [c2] }).deck.length pick := by
        simpa [hdeck2] using hv
      split at h
      · exact absurd h (by simp)
      next c3 g3 h3 =>
        have hI3 := get_random_card_inv_player hv2 hI2 h3
        dsimp only at h
        split at h
        · exact absurd h (by simp)
        next P hP =>
          split at h <;>
            obtain rfl : _ = g' := Option.some.inj h <;>
            exact cards_inv_set_status _ hI3

theorem exec_game_awaiting_player_decision_inv {g g' : Game}
    {keycodes : List Keycode} {pick : DrawOracle}
    (hv : DrawOracle.Valid g.deck.length pick) (hInv : CardsInv g)
    (h : exec_game_awaiting_player_decision g keycodes pick = some g') :
    CardsInv g' := by
  unfold exec_game_awaiting_player_decision at h
  split at h
  · split at h
    · exact absurd h (by simp)
    next c g1 h1 =>
      have hI1 := get_random_card_inv_player hv hInv h1
      dsimp only at h
      split at h
      · exact absurd h (by simp)
      next P hP =>
        split at h <;> [skip; split at h] <;>
          obtain rfl : _ = g' := Option.some.inj h <;>
          exact cards_inv_set_status _ hI1
  · split at h <;>
      obtain rfl : _ = g' := Option.some.inj h
    · exact cards_inv_set_status _ hInv
    · exact hInv

theorem exec_game_game_over_inv {g : Game} {keycodes : List Keycode}
    (hInv : CardsInv g) : CardsInv (exec_game_game_over g keycodes) := by
  unfold exec_game_game_over
  split
  · split
    · exact ⟨List.nodup_nil, by simp⟩
    · exact hInv
  · exact hInv

theorem exec_game_player_stopped_taking_cards_inv {g g' : Game}
    {pick : DrawOracle}
    (hv : DrawOracle.Valid g.deck.length pick) (hInv : CardsInv g)
    (h : exec_game_player_stopped_taking_cards g pick = some g') :
    CardsInv g' := by
  unfold exec_game_player_stopped_taking_cards at h
  split at h
  · exact absurd h (by simp)
  next P hP =>
    split at h
    · exact absurd h (by simp)
    next cs0 hcs0 =>
      split at h
      · exact absurd h (by simp)
      next g1 D hloop =>
        have hI1 := dealer_loop_inv g cs0 hv hInv hloop
        split at h <;> [skip; split at h] <;> [skip; skip; split at h] <;>
          obtain rfl : _ = g' := Option.some.inj h <;>
          exact cards_inv_set_status _ hI1

theorem exec_cycle_inv {g g' : Game} {keycodes : List Keycode}
    {pick : DrawOracle}
    (hv : DrawOracle.Valid g.deck.length pick) (hInv : CardsInv g)
    (h : exec_cycle g keycodes pick = some g') : CardsInv g' := by
  unfold exec_cycle at h
  split at h
  · exact exec_game_uninitialized_inv hv hInv h
  · exact exec_game_awaiting_player_decision_inv hv hInv h
  · obtain rfl : _ = g' := Option.some.inj h
    exact exec_game_game_over_inv hInv
  · exact exec_game_player_stopped_taking_cards_inv hv hInv h

theorem reachable_cards_inv {deck : List Card} {g : Game}
    (h : Reachable deck g) : CardsInv g := by
  induction h with
  | init => exact ⟨List.nodup_nil, by simp [Game.new]⟩
  | step keycodes pick _ hv hexec ih => exact exec_cycle_inv hv ih hexec

theorem calculate_hand_score_eq_sum (deck : List Card) (hand : List Nat)
    (h : ∀ i ∈ hand, i < deck.length) :
    calculate_hand_score deck hand =
      some ((hand.map (card_score_at deck)).sum) := by
  induction hand with
  | nil => simp [calculate_hand_score, score_fold]
  | cons x t ih =>
    rw [calculate_hand_score_cons]
    have hx : x < deck.length := h x (by simp)
    have hc : deck[x]? = some deck[x] := List.getElem?_eq_getElem hx
    rw [hc, ih fun i hi => h i (by simp [hi])]
    simp [card_score_at, hc]

theorem exists_fresh_index {len : Nat} {used : List Nat}
    (h : used.length < len) : ∃ i, i < len ∧ i ∉ used := by
  by_contra hc
  push_neg at hc
  have hsub : List.range len ⊆ used := by
    intro i hi
    exact hc i (List.mem_range.mp hi)
  have hsp := List.subperm_of_subset (List.nodup_range len) hsub
  have hle := hsp.length_le
  rw [List.length_range] at hle
  omega

theorem firstFresh_valid (len : Nat) : DrawOracle.Valid len (firstFresh len) := by
  intro used hlen
  obtain ⟨i, hi, hni⟩ := exists_fresh_index hlen
  have hmem : i ∈ (List.range len).filter fun j => !(used.contains j) := by
    rw [List.mem_filter]
    exact ⟨List.mem_range.mpr hi, by simpa using hni⟩
  obtain ⟨x, xs, hxx⟩ := List.exists_cons_of_ne_nil (List.ne_nil_of_mem hmem)
  have hxmem : x ∈ (List.range len).filter fun j => !(used.contains j) := by
    rw [hxx]
    exact List.mem_cons_self x xs
  rw [List.mem_filter] at hxmem
  unfold firstFresh
  rw [hxx]
  simp only [List.headD_cons]
  exact ⟨List.mem_range.mp hxmem.1, by simpa using hxmem.2⟩

theorem drawN_spec {pick : DrawOracle} :
    ∀ (n : Nat) (g g' : Game),
      DrawOracle.Valid g.deck.length pick →
      g.used_cards.Nodup →
      (∀ i ∈ g.used_cards, i < g.deck.length) →
      drawN pick n g = some g' →
      g'.deck = g.deck ∧
      g'.used_cards.length = g.used_cards.length + n ∧
      g'.used_cards.Nodup ∧
      (∀ i ∈ g'.used_cards, i < g'.deck.length) := by
  intro n
  induction n with
  | zero =>
    intro g g' hv hnd hbd h
    obtain rfl : g = g' := Option.some.inj h
    exact ⟨rfl, rfl, hnd, hbd⟩
  | succ n ih =>
    intro g g' hv hnd hbd h
    unfold drawN at h
    split at h
    · exact absurd h (by simp)
    next c g1 h1 =>
      obtain ⟨hfr1, hfr2⟩ := get_random_card_fresh hv h1
      obtain ⟨hlt, -, hg1⟩ := get_random_card_some h1
      subst hg1
      have hnd1 : (g.used_cards ++ [c]).Nodup := by
        rw [List.nodup_append]
        exact ⟨hnd, List.nodup_singleton c, by simpa using hfr2⟩
      have hbd1 : ∀ i ∈ g.used_cards ++ [c], i < g.deck.length := by
        intro i hi
        rcases List.mem_append.mp hi with hi | hi
        · exact hbd i hi
        · rw [List.mem_singleton] at hi
          subst hi
          exact hfr1
      obtain ⟨hdeck, hlen, hnd', hbd'⟩ :=
        ih { g with used_cards := g.used_cards ++ [c] } g' hv hnd1 hbd1 h
      refine ⟨hdeck, ?_, hnd', hbd'⟩
      rw [hlen]
      have hone : (g.used_cards ++ [c]).length = g.used_cards.length + 1 := by
        simp
      simp only at hone ⊢
      omega

/-- C1: On the tick executed in state `PlayerStoppedTakingCards`, the dealer
repeatedly draws one card while dealer score < 17 and dealer score ≤ player
score (the loop of the handler; on exit the stopping condition fails); when
the loop ends the status becomes `GameOver Player` if the dealer score
exceeds 21, otherwise `GameOver Casino` if dealer score > player score,
`GameOver Player` if dealer score < player score, and `GameOver Tie` when
the scores are equal. -/
theorem C1_dealer_turn_outcome {g g' : Game} {pick : DrawOracle}
    (h : exec_game_player_stopped_taking_cards g pick = some g') :
    ∃ P D L,
      calculate_hand_score g.deck g.player_hand = some P ∧
      g'.player_hand = g.player_hand ∧
      g'.casino_hand = g.casino_hand ++ L ∧
      calculate_hand_score g'.deck g'.casino_hand = some D ∧
      ¬(D < CASINO_STOP_SCORE ∧ D ≤ P) ∧
      g'.status = (if TWENTY_ONE < D then GameStatus.GameOver Winner.Player
                   else if P < D then GameStatus.GameOver Winner.Casino
                   else if D < P then GameStatus.GameOver Winner.Player
                   else GameStatus.GameOver Winner.Tie) := by
  obtain ⟨L, P, D, hdeck, hph, hused, hch, hP, hD, hstop, hlen, hstatus⟩ :=
    exec_game_player_stopped_taking_cards_spec h
  exact ⟨P, D, L, hP, hph, hch, hD, hstop, hstatus⟩

/-- C2: On a tick in state `AwaitingPlayerDecision`: with the hit key F
pressed, exactly one card goes to the player and the status becomes
`GameOver Casino` above 21, `PlayerStopedTakingCards` at exactly 21, and
stays `AwaitingPlayerDecision` otherwise; with F not pressed but the stand
key E pressed (hit has priority), the status becomes
`PlayerStopedTakingCards` with no card dealt; with neither key pressed the
state is unchanged. -/
theorem C2_awaiting_player_decision {g : Game} (keycodes : List Keycode)
    (pick : DrawOracle) (hst : g.status = GameStatus.AwaitingPlayerDecision) :
    (∀ g', Keycode.F ∈ keycodes →
      exec_game_awaiting_player_decision g keycodes pick = some g' →
      ∃ c P,
        g'.player_hand = g.player_hand ++ [c] ∧
        g'.casino_hand = g.casino_hand ∧
        g'.used_cards = g.used_cards ++ [c] ∧
        calculate_hand_score g.deck (g.player_hand ++ [c]) = some P ∧
        g'.status = (if TWENTY_ONE < P then GameStatus.GameOver Winner.Casino
                     else if P = TWENTY_ONE then GameStatus.PlayerStopedTakingCards
                     else GameStatus.AwaitingPlayerDecision)) ∧
    (Keycode.F ∉ keycodes → Keycode.E ∈ keycodes →
      exec_game_awaiting_player_decision g keycodes pick =
        some { g with status := GameStatus.PlayerStopedTakingCards }) ∧
    (Keycode.F ∉ keycodes → Keycode.E ∉ keycodes →
      exec_game_awaiting_player_decision g keycodes pick = some g) := by
  refine ⟨?_, ?_, ?_⟩
  · intro g' hF h
    obtain ⟨c, P, hdeck, hused, hch, hph, hcalc, hstatus⟩ :=
      exec_game_awaiting_hit_spec hF h
    rw [hst] at hstatus
    exact ⟨c, P, hph, hch, hused, hcalc, hstatus⟩
  · intro hF hE
    exact exec_game_awaiting_stand_spec hF hE
  · intro hF hE
    exact exec_game_awaiting_idle_spec hF hE

/-- C3: On a tick in state `Uninitialized` with both hands empty, exactly
one card is dealt to the dealer's hand and exactly two to the player's;
afterwards the status is `PlayerStopedTakingCards` exactly when the
two-card player score is 21, and `AwaitingPlayerDecision` otherwise. -/
theorem C3_first_deal {g g' : Game} {pick : DrawOracle}
    (hplayer : g.player_hand = []) (hcasino : g.casino_hand = [])
    (h : exec_game_uninitialized g pick = some g') :
    g'.casino_hand.length = 1 ∧ g'.player_hand.length = 2 ∧
    ∃ P, calculate_hand_score g.deck g'.player_hand = some P ∧
      g'.status = (if P = TWENTY_ONE then GameStatus.PlayerStopedTakingCards
                   else GameStatus.AwaitingPlayerDecision) := by
  obtain ⟨c1, c2, c3, P, hdeck, hused, hch, hph, hcalc, hstatus⟩ :=
    exec_game_uninitialized_spec h
  refine ⟨?_, ?_, P, ?_, hstatus⟩
  · rw [hch, hcasino]
    rfl
  · rw [hph, hplayer]
    rfl
  · rw [hph, hplayer]
    rw [hplayer] at hcalc
    simpa using hcalc

/-- C4: `get_random_card` returns `none` exactly when the dealt-set size is
at least the deck length and then leaves the game untouched; otherwise (for
any oracle satisfying the rejection loop's guarantee) it returns a fresh
in-range position and records it; N successful draws from a fresh game
leave exactly N distinct in-range positions in the dealt-set. -/
theorem C4_allocator_contract :
    (∀ (g : Game) (pick : DrawOracle),
      ((get_random_card g pick).1 = none ↔
        g.deck.length ≤ g.used_cards.length) ∧
      (g.deck.length ≤ g.used_cards.length → (get_random_card g pick).2 = g)) ∧
    (∀ (g g1 : Game) (pick : DrawOracle) (c : Nat),
      DrawOracle.Valid g.deck.length pick →
      get_random_card g pick = (some c, g1) →
      c < g.deck.length ∧ c ∉ g.used_cards ∧
        g1.used_cards = g.used_cards ++ [c]) ∧
    (∀ (pick : DrawOracle) (n : Nat) (deck : List Card) (g' : Game),
      DrawOracle.Valid deck.length pick →
      drawN pick n (Game.new deck) = some g' →
      g'.used_cards.length = n ∧ g'.used_cards.Nodup ∧
        ∀ i ∈ g'.used_cards, i < deck.length) := by
  refine ⟨?_, ?_, ?_⟩
  · intro g pick
    refine ⟨get_random_card_fst_none_iff g pick, fun h => ?_⟩
    rw [get_random_card_exhausted pick h]
  · intro g g1 pick c hv h
    obtain ⟨h1, h2⟩ := get_random_card_fresh hv h
    obtain ⟨-, -, hg1⟩ := get_random_card_some h
    subst hg1
    exact ⟨h1, h2, rfl⟩
  · intro pick n deck g' hv h
    have hv' : DrawOracle.Valid (Game.new deck).deck.length pick := hv
    obtain ⟨hdeck, hlen, hnd, hbd⟩ :=
      drawN_spec n (Game.new deck) g' hv' (by simp [Game.new]) (by simp [Game.new]) h
    refine ⟨by simpa [Game.new] using hlen, hnd, ?_⟩
    intro i hi
    have hx := hbd i hi
    rw [hdeck] at hx
    simpa [Game.new] using hx

/-- C5: The dealer draw loop always terminates (it is a total function
here), the number of cards it adds is bounded by the deck size, and when the
handler returns a state its dealer score is at least 17 or exceeds the
player score; the remaining alternative is the `none` result, the panic on
a failed draw (deck exhausted). -/
theorem C5_dealer_loop_bound (g : Game) (pick : DrawOracle) :
    exec_game_player_stopped_taking_cards g pick = none ∨
    ∃ g' P D,
      exec_game_player_stopped_taking_cards g pick = some g' ∧
      g'.casino_hand.length ≤ g.casino_hand.length + g.deck.length ∧
      calculate_hand_score g.deck g.player_hand = some P ∧
      calculate_hand_score g'.deck g'.casino_hand = some D ∧
      (CASINO_STOP_SCORE ≤ D ∨ P < D) := by
  cases hE : exec_game_player_stopped_taking_cards g pick with
  | none => exact Or.inl rfl
  | some g' =>
    right
    obtain ⟨L, P, D, hdeck, hph, hused, hch, hP, hD, hstop, hlen, hstatus⟩ :=
      exec_game_player_stopped_taking_cards_spec hE
    refine ⟨g', P, D, rfl, ?_, hP, hD, ?_⟩
    · have hLbound : L.length ≤ g.deck.length := by
        rcases hlen with rfl | hle
        · simp
        · have h2 : g'.used_cards.length = g.used_cards.length + L.length := by
            rw [hused]
            simp
          rw [hdeck] at hle
          omega
      rw [hch]
      simp only [List.length_append]
      omega
    · by_cases hd : CASINO_STOP_SCORE ≤ D
      · exact Or.inl hd
      · refine Or.inr ?_
        rcases Nat.lt_or_ge P D with hlt | hge
        · exact hlt
        · exact absurd ⟨by omega, by omega⟩ hstop

/-- C6: Every card of `get_deck` has as its display-asset identifier exactly
the lowercase rank name and lowercase suit name joined by `"_of_"`, embedded
in its texture path between the `"assets/cards/"` directory and the
`".png"` extension. -/
theorem C6_asset_identifier :
    ∀ c ∈ get_deck,
      c.path = "assets/cards/" ++
        (c.card_type.get_string_name ++ "_of_" ++ c.card_suit.get_string_name) ++
        ".png" := by
  intro c hc
  simp only [get_deck, List.mem_flatMap, List.mem_map] at hc
  obtain ⟨tp, -, suit, -, rfl⟩ := hc
  cases tp <;> cases suit <;> rfl

/-- C7: On a tick in state `GameOver` with the restart key N pressed, the
dealt-set and both hands are reset to empty and the status becomes
`Uninitialized`, while the deck field is exactly the old deck (not
rebuilt). -/
theorem C7_restart {g : Game} {keycodes : List Keycode} {pick : DrawOracle}
    {w : Winner}
    (hst : g.status = GameStatus.GameOver w) (hN : Keycode.N ∈ keycodes) :
    exec_cycle g keycodes pick =
      some { status := GameStatus.Uninitialized, deck := g.deck,
             used_cards := [], player_hand := [], casino_hand := [] } := by
  unfold exec_cycle
  rw [hst]
  dsimp only
  rw [exec_game_game_over_restart hst hN]

/-- C8: In every state reachable by `exec_cycle` ticks from a fresh game,
the dealt-set has no duplicate deck position and every position in either
hand is in the dealt-set; moreover any further tick with a valid oracle
preserves this property. -/
theorem C8_used_cards_invariant (deck : List Card) (g : Game)
    (hg : Reachable deck g) :
    g.used_cards.Nodup ∧
    (∀ i ∈ g.player_hand, i ∈ g.used_cards) ∧
    (∀ i ∈ g.casino_hand, i ∈ g.used_cards) ∧
    (∀ (keycodes : List Keycode) (pick : DrawOracle) (g' : Game),
      DrawOracle.Valid g.deck.length pick →
      exec_cycle g keycodes pick = some g' →
      g'.used_cards.Nodup ∧
      (∀ i ∈ g'.player_hand, i ∈ g'.used_cards) ∧
      (∀ i ∈ g'.casino_hand, i ∈ g'.used_cards)) := by
  have main : ∀ h : Game, CardsInv h →
      h.used_cards.Nodup ∧ (∀ i ∈ h.player_hand, i ∈ h.used_cards) ∧
        (∀ i ∈ h.casino_hand, i ∈ h.used_cards) := by
    intro h hI
    obtain ⟨hnd, hperm⟩ := hI
    refine ⟨hnd, ?_, ?_⟩
    · intro i hi
      exact hperm.mem_iff.mpr (List.mem_append.mpr (Or.inl hi))
    · intro i hi
      exact hperm.mem_iff.mpr (List.mem_append.mpr (Or.inr hi))
  have hInv := reachable_cards_inv hg
  obtain ⟨h1, h2, h3⟩ := main g hInv
  refine ⟨h1, h2, h3, ?_⟩
  intro keycodes pick g' hv hexec
  exact main g' (exec_cycle_inv hv hInv hexec)

/-- C9: `calculate_hand_score` computes, for every hand of in-range
positions, the sum of the rank scores of its cards — the rank scoring being
face value for 2–10, 10 for Jack, Queen and King and 11 for Ace, as the
spec-side `spec_rank_score` states — and its value is invariant under
permutations of the hand. -/
theorem C9_hand_score (deck : List Card) :
    (∀ t : CardType, t.get_score = spec_rank_score t) ∧
    (∀ hand : List Nat, (∀ i ∈ hand, i < deck.length) →
      calculate_hand_score deck hand =
        some ((hand.map (card_score_at deck)).sum)) ∧
    (∀ h1 h2 : List Nat, h1.Perm h2 →
      calculate_hand_score deck h1 = calculate_hand_score deck h2) := by
  refine ⟨?_, ?_, ?_⟩
  · intro t
    cases t <;> rfl
  · intro hand hbd
    exact calculate_hand_score_eq_sum deck hand hbd
  · intro h1 h2 hp
    exact calculate_hand_score_perm deck hp

/-- C10: In every state reachable by `exec_cycle` ticks from a fresh game,
the dealt-set is, up to order, exactly the two hands put together: the
hands are disjoint and the dealt-set's size is the sum of the two hand
sizes. -/
theorem C10_hands_partition (deck : List Card) (g : Game)
    (hg : Reachable deck g) :
    g.used_cards.Perm (g.player_hand ++ g.casino_hand) ∧
    (∀ i ∈ g.player_hand, i ∉ g.casino_hand) ∧
    g.used_cards.length = g.player_hand.length + g.casino_hand.length := by
  obtain ⟨hnd, hperm⟩ := reachable_cards_inv hg
  refine ⟨hperm, ?_, ?_⟩
  · have hnd2 : (g.player_hand ++ g.casino_hand).Nodup := hperm.nodup_iff.mp hnd
    rw [List.nodup_append] at hnd2
    exact fun i hi => hnd2.2.2 hi
  · have hlen := hperm.length_eq
    simpa using hlen

theorem testRun_dealer_loop :
    dealer_loop (firstFresh 5) 20
      (Game.mk GameStatus.PlayerStopedTakingCards testDeck [0, 1, 2] [1, 2] [0])
      10 =
      some (Game.mk GameStatus.PlayerStopedTakingCards testDeck
        [0, 1, 2, 3] [1, 2] [0, 3], 20) := by
  rw [dealer_loop_draw (by decide)
    (show get_random_card
        (Game.mk GameStatus.PlayerStopedTakingCards testDeck [0, 1, 2] [1, 2] [0])
        (firstFresh 5) =
      (some 3,
       Game.mk GameStatus.PlayerStopedTakingCards testDeck [0, 1, 2, 3] [1, 2] [0])
      from by decide)]
  show dealer_loop (firstFresh 5) 20
      (Game.mk GameStatus.PlayerStopedTakingCards testDeck [0, 1, 2, 3] [1, 2] [0, 3])
      20 = _
  exact dealer_loop_stop (by decide)

theorem testRun_psc :
    exec_game_player_stopped_taking_cards
      (Game.mk GameStatus.PlayerStopedTakingCards testDeck [0, 1, 2] [1, 2] [0])
      (firstFresh 5) =
      some (Game.mk (GameStatus.GameOver Winner.Tie) testDeck
        [0, 1, 2, 3] [1, 2] [0, 3]) := by
  unfold exec_game_player_stopped_taking_cards
  dsimp only
  simp only [show calculate_hand_score testDeck [1, 2] = some 20 from by decide,
    show calculate_hand_score testDeck [0] = some 10 from by decide]
  rw [testRun_dealer_loop]
  decide

/-- Witness for C1: a concrete dealer turn on the all-tens deck ending in a
tie at 20 against 20. -/
theorem C1_witness :
    ∃ P D L,
      calculate_hand_score
        (Game.mk GameStatus.PlayerStopedTakingCards testDeck [0, 1, 2] [1, 2] [0]).deck
        (Game.mk GameStatus.PlayerStopedTakingCards testDeck [0, 1, 2] [1, 2] [0]).player_hand =
        some P ∧
      (Game.mk (GameStatus.GameOver Winner.Tie) testDeck [0, 1, 2, 3] [1, 2] [0, 3]).player_hand =
        (Game.mk GameStatus.PlayerStopedTakingCards testDeck [0, 1, 2] [1, 2] [0]).player_hand ∧
      (Game.mk (GameStatus.GameOver Winner.Tie) testDeck [0, 1, 2, 3] [1, 2] [0, 3]).casino_hand =
        (Game.mk GameStatus.PlayerStopedTakingCards testDeck [0, 1, 2] [1, 2] [0]).casino_hand ++ L ∧
      calculate_hand_score
        (Game.mk (GameStatus.GameOver Winner.Tie) testDeck [0, 1, 2, 3] [1, 2] [0, 3]).deck
        (Game.mk (GameStatus.GameOver Winner.Tie) testDeck [0, 1, 2, 3] [1, 2] [0, 3]).casino_hand =
        some D ∧
      ¬(D < CASINO_STOP_SCORE ∧ D ≤ P) ∧
      (Game.mk (GameStatus.GameOver Winner.Tie) testDeck [0, 1, 2, 3] [1, 2] [0, 3]).status =
        (if TWENTY_ONE < D then GameStatus.GameOver Winner.Player
         else if P < D then GameStatus.GameOver Winner.Casino
         else if D < P then GameStatus.GameOver Winner.Player
         else GameStatus.GameOver Winner.Tie) :=
  @C1_dealer_turn_outcome
    (Game.mk GameStatus.PlayerStopedTakingCards testDeck [0, 1, 2] [1, 2] [0])
    (Game.mk (GameStatus.GameOver Winner.Tie) testDeck [0, 1, 2, 3] [1, 2] [0, 3])
    (firstFresh 5) testRun_psc

/-- Witness for C2: the stand branch at a concrete state. -/
theorem C2_witness :
    exec_game_awaiting_player_decision
      (Game.mk GameStatus.AwaitingPlayerDecision testDeck [0, 1, 2] [1, 2] [0])
      [Keycode.E] (firstFresh 5) =
      some (Game.mk GameStatus.PlayerStopedTakingCards testDeck [0, 1, 2] [1, 2] [0]) :=
  (@C2_awaiting_player_decision
    (Game.mk GameStatus.AwaitingPlayerDecision testDeck [0, 1, 2] [1, 2] [0])
    [Keycode.E] (firstFresh 5) rfl).2.1 (by decide) (by decide)

/-- Witness for C3: the first deal on the all-tens deck gives the dealer one
card, the player two, and status `AwaitingPlayerDecision` at score 20. -/
theorem C3_witness :
    (Game.mk GameStatus.AwaitingPlayerDecision testDeck [0, 1, 2] [1, 2] [0]).casino_hand.length = 1 ∧
    (Game.mk GameStatus.AwaitingPlayerDecision testDeck [0, 1, 2] [1, 2] [0]).player_hand.length = 2 ∧
    ∃ P,
      calculate_hand_score (Game.new testDeck).deck
        (Game.mk GameStatus.AwaitingPlayerDecision testDeck [0, 1, 2] [1, 2] [0]).player_hand =
        some P ∧
      (Game.mk GameStatus.AwaitingPlayerDecision testDeck [0, 1, 2] [1, 2] [0]).status =
        (if P = TWENTY_ONE then GameStatus.PlayerStopedTakingCards
         else GameStatus.AwaitingPlayerDecision) :=
  @C3_first_deal (Game.new testDeck)
    (Game.mk GameStatus.AwaitingPlayerDecision testDeck [0, 1, 2] [1, 2] [0])
    (firstFresh 5) rfl rfl (by decide)

/-- Witness for C4: three draws from a fresh all-tens deck leave the
dealt-set `[0, 1, 2]`. -/
theorem C4_witness :
    (Game.mk GameStatus.Uninitialized testDeck [0, 1, 2] [] []).used_cards.length = 3 ∧
    (Game.mk GameStatus.Uninitialized testDeck [0, 1, 2] [] []).used_cards.Nodup ∧
    ∀ i ∈ (Game.mk GameStatus.Uninitialized testDeck [0, 1, 2] [] []).used_cards,
      i < testDeck.length :=
  C4_allocator_contract.2.2 (firstFresh 5) 3 testDeck
    (Game.mk GameStatus.Uninitialized testDeck [0, 1, 2] [] [])
    (firstFresh_valid 5) (by decide)

/-- Witness for C6: the ace of spades resolves to `"ace_of_spades"`. -/
theorem C6_witness :
    (Card.mk CardType.Ace CardSuit.Spades "assets/cards/ace_of_spades.png").path =
      "assets/cards/" ++
        ((Card.mk CardType.Ace CardSuit.Spades "assets/cards/ace_of_spades.png").card_type.get_string_name ++
         "_of_" ++
         (Card.mk CardType.Ace CardSuit.Spades "assets/cards/ace_of_spades.png").card_suit.get_string_name) ++
        ".png" :=
  C6_asset_identifier
    (Card.mk CardType.Ace CardSuit.Spades "assets/cards/ace_of_spades.png") (by decide)

/-- Witness for C7: restarting from a concrete `GameOver` state. -/
theorem C7_witness :
    exec_cycle (Game.mk (GameStatus.GameOver Winner.Tie) testDeck [0, 1, 2, 3] [1, 2] [0, 3])
      [Keycode.N] (firstFresh 5) =
      some (Game.mk GameStatus.Uninitialized testDeck [] [] []) :=
  @C7_restart (Game.mk (GameStatus.GameOver Winner.Tie) testDeck [0, 1, 2, 3] [1, 2] [0, 3])
    [Keycode.N] (firstFresh 5) Winner.Tie rfl (by decide)

/-- Witness for C8: the fresh game is reachable and its dealt-set has no
duplicates. -/
theorem C8_witness : (Game.new testDeck).used_cards.Nodup :=
  (C8_used_cards_invariant testDeck (Game.new testDeck) Reachable.init).1

/-- Witness for C9: the score of the concrete hand `[1, 2]` on the all-tens
deck is the sum of its card scores. -/
theorem C9_witness :
    calculate_hand_score testDeck [1, 2] =
      some (([1, 2].map (card_score_at testDeck)).sum) :=
  (C9_hand_score testDeck).2.1 [1, 2] (by decide)

/-- Witness for C10: after the first tick from a fresh all-tens game the
dealt-set size is the sum of the hand sizes (3 = 2 + 1). -/
theorem C10_witness :
    (Game.mk GameStatus.AwaitingPlayerDecision testDeck [0, 1, 2] [1, 2] [0]).used_cards.length =
      (Game.mk GameStatus.AwaitingPlayerDecision testDeck [0, 1, 2] [1, 2] [0]).player_hand.length +
      (Game.mk GameStatus.AwaitingPlayerDecision testDeck [0, 1, 2] [1, 2] [0]).casino_hand.length :=
  (C10_hands_partition testDeck
    (Game.mk GameStatus.AwaitingPlayerDecision testDeck [0, 1, 2] [1, 2] [0])
    (Reachable.step [] (firstFresh 5) Reachable.init (firstFresh_valid 5) (by decide))).2.2
